import Mathlib

/-!
Verification development for the qri repository.

Part 1 embeds `p2p/resolve_ref.go` (`p2pRefResolver.ResolveRef`): the p2p
reference resolver fans out one request per connected qri peer and races the
responses against a stream-context deadline.

Part 2 models the `cron` recurring-job scheduler package.  Only the cron
package's tests are part of the repository snapshot, so its definitions are
modelled from the spec (§3–§4.6 of spec.md) and are marked as such.
-/

namespace P2P

/-- A dataset reference, mirroring the fields of `dsref.Ref` (the `dsref`
package is external to this repository snapshot, so only the field shape and
identity/copy semantics are relevant; completeness of a ref is kept as a
parameter `complete` below since `dsref.Ref.Complete` lives outside `src/`). -/
structure Ref where
  InitID : String
  Username : String
  ProfileID : String
  Name : String
  Path : String
deriving DecidableEq, Repr

/-- Result record sent back on `resCh` by each per-peer goroutine in
`ResolveRef`: the (possibly rewritten) request ref plus the source string. -/
structure ResolveRefRes where
  ref : Ref
  source : String
deriving DecidableEq, Repr

/-- The two error outcomes of `ResolveRef`: `dsref.ErrRefNotFound`, and the
wrapped context error produced when `streamCtx.Done()` fires. -/
inductive ResolveErr where
  | refNotFound
  | ctxDone
deriving DecidableEq, Repr

/-- `p2pRefResolverTimeout = time.Second * 20`, in nanoseconds (Go
`time.Duration` units): the deadline applied to `streamCtx`, the context under
which every per-peer request runs, measured from the `ResolveRef` call. -/
def p2pRefResolverTimeout : Nat := 20 * 1000000000

/-- Embeds `resolveRefRequest`: on any failure (stream open, send, receive)
the function returns `""` and leaves the request ref as the copy it was given;
on success it overwrites the request ref with the received ref and returns the
peer id's pretty form.  `reply = none` models any of the failure paths,
`reply = some received` models a successful exchange. -/
def resolveRefRequest (reqRef : Ref) (pidPretty : String) (reply : Option Ref) :
    ResolveRefRes :=
  match reply with
  | none => { ref := reqRef, source := "" }
  | some received => { ref := received, source := pidPretty }

/-- Embeds the `for { select { ... } }` receive loop of `ResolveRef`.
`responses` is the sequence of results received on `resCh` before
`streamCtx.Done()` fires, in arrival order; reaching the end of that list with
requests still outstanding is exactly the `<-streamCtx.Done()` branch.
`numReqs` is decremented on each receive, as in the Go code; the branch order
(`!Complete && numReqs == 0` first, then `Complete`) matches the source. -/
def resolveLoop (complete : Ref → Bool) (callerRef : Ref) :
    Nat → List ResolveRefRes → Ref × String × Option ResolveErr
  | _, [] => (callerRef, "", some .ctxDone)
  | numReqs, res :: rest =>
    let n := numReqs - 1
    if !complete res.ref && n == 0 then (callerRef, "", some .refNotFound)
    else if complete res.ref then (res.ref, res.source, none)
    else resolveLoop complete callerRef n rest

/-- Embeds `p2pRefResolver.ResolveRef`.  `nodePresent` models the
`rr == nil || rr.node == nil` guard; `connectedPids` is
`rr.node.ConnectedQriPeerIDs()`; `responses` is the arrival-ordered list of
per-peer results received before the stream context's deadline (each produced
by `resolveRefRequest` from a private copy of the caller's ref).  The first
component of the result is the caller's ref after the call (`*ref` is only
assigned on the complete-response path), the second is the returned source
string, the third the returned error. -/
def ResolveRef (complete : Ref → Bool) (nodePresent : Bool) (ref : Ref)
    (connectedPids : List String) (responses : List ResolveRefRes) :
    Ref × String × Option ResolveErr :=
  if !nodePresent then (ref, "", some .refNotFound)
  else if connectedPids.length == 0 then (ref, "", some .refNotFound)
  else resolveLoop complete ref connectedPids.length responses

/-- Helper: when every response that arrives is incomplete and all `numReqs`
requests have answered, the loop returns `ErrRefNotFound`. -/
theorem resolveLoop_all_incomplete (complete : Ref → Bool) (callerRef : Ref)
    (responses : List ResolveRefRes) (hne : responses ≠ [])
    (hinc : ∀ r ∈ responses, complete r.ref = false) :
    resolveLoop complete callerRef responses.length responses =
      (callerRef, "", some ResolveErr.refNotFound) := by
  induction responses with
  | nil => exact absurd rfl hne
  | cons res rest ih =>
    have hres : complete res.ref = false := hinc res (List.mem_cons_self _ _)
    cases rest with
    | nil => simp [resolveLoop, hres]
    | cons r2 rest2 =>
      have hrest : ∀ r ∈ r2 :: rest2, complete r.ref = false :=
        fun r hr => hinc r (List.mem_cons_of_mem _ hr)
      have hrec := ih (by simp) hrest
      simpa [resolveLoop, hres] using hrec

/-- Helper: if fewer responses arrive than requests were sent and none of them
is complete, the loop ends in the context-done branch. -/
theorem resolveLoop_timeout (complete : Ref → Bool) (callerRef : Ref)
    (responses : List ResolveRefRes) :
    ∀ numReqs : Nat, responses.length < numReqs →
      (∀ r ∈ responses, complete r.ref = false) →
      resolveLoop complete callerRef numReqs responses =
        (callerRef, "", some ResolveErr.ctxDone) := by
  induction responses with
  | nil => intro numReqs _ _; simp [resolveLoop]
  | cons res rest ih =>
    intro numReqs hlt hinc
    have hres : complete res.ref = false := hinc res (List.mem_cons_self _ _)
    have hn : numReqs - 1 ≠ 0 := by
      simp only [List.length_cons] at hlt; omega
    have hrec := ih (numReqs - 1)
      (by simp only [List.length_cons] at hlt; omega)
      (fun r hr => hinc r (List.mem_cons_of_mem _ hr))
    simpa [resolveLoop, hres, hn] using hrec

/-- Helper: the first complete response (in arrival order) wins, provided no
more responses arrive than requests were sent. -/
theorem resolveLoop_first_complete (complete : Ref → Bool) (callerRef : Ref)
    (responses : List ResolveRefRes) :
    ∀ (numReqs : Nat) (fc : ResolveRefRes), responses.length ≤ numReqs →
      responses.find? (fun r => complete r.ref) = some fc →
      resolveLoop complete callerRef numReqs responses =
        (fc.ref, fc.source, none) := by
  induction responses with
  | nil => intro numReqs fc _ hfind; simp at hfind
  | cons res rest ih =>
    intro numReqs fc hle hfind
    by_cases hres : complete res.ref
    · rw [List.find?_cons_of_pos _ (by simp [hres])] at hfind
      cases hfind
      simp [resolveLoop, hres]
    · have hresF : complete res.ref = false := by simpa using hres
      rw [List.find?_cons_of_neg _ (by simp [hresF])] at hfind
      have hrestne : rest ≠ [] := by
        intro h; rw [h] at hfind; simp at hfind
      have hn : numReqs - 1 ≠ 0 := by
        cases rest with
        | nil => exact absurd rfl hrestne
        | cons a b => simp only [List.length_cons] at hle; omega
      have hrec := ih (numReqs - 1) fc
        (by simp only [List.length_cons] at hle; omega) hfind
      simpa [resolveLoop, hresF, hn] using hrec

/-- Helper: whenever the loop returns an error, the caller's ref is returned
untouched. -/
theorem resolveLoop_error_ref (complete : Ref → Bool) (callerRef : Ref)
    (responses : List ResolveRefRes) :
    ∀ numReqs : Nat,
      (resolveLoop complete callerRef numReqs responses).2.2 ≠ none →
      (resolveLoop complete callerRef numReqs responses).1 = callerRef := by
  induction responses with
  | nil => intro numReqs _; simp [resolveLoop]
  | cons res rest ih =>
    intro numReqs herr
    by_cases hb : (!complete res.ref && (numReqs - 1 == 0)) = true
    · simp [resolveLoop, hb]
    · by_cases hres : complete res.ref
      · simp [resolveLoop, hb, hres] at herr
      · have hresF : complete res.ref = false := by simpa using hres
        have hn : (numReqs - 1 == 0) = false := by
          by_contra h
          exact hb (by simp [hresF, Bool.not_eq_false] at h ⊢; simpa using h)
        have hrec := ih (numReqs - 1)
        simp only [resolveLoop, hresF, hn, Bool.not_false, Bool.and_false] at herr ⊢
        exact hrec (by simpa using herr)

/-- C1: with at least one connected peer and one response received per
connected peer, `ResolveRef` returns, with nil error, the source of the first
complete response and assigns that resolved ref to the caller's ref; if every
response is incomplete, or no peers are connected, it returns the empty source
and `ErrRefNotFound`. -/
theorem ResolveRef_fanout_first_complete_wins (complete : Ref → Bool)
    (ref : Ref) (connectedPids : List String)
    (responses : List ResolveRefRes)
    (hpeers : connectedPids ≠ [])
    (hall : responses.length = connectedPids.length) :
    (∀ fc : ResolveRefRes,
      responses.find? (fun r => complete r.ref) = some fc →
      ResolveRef complete true ref connectedPids responses =
        (fc.ref, fc.source, none)) ∧
    ((∀ r ∈ responses, complete r.ref = false) →
      ResolveRef complete true ref connectedPids responses =
        (ref, "", some ResolveErr.refNotFound)) ∧
    (∀ rs : List ResolveRefRes,
      ResolveRef complete true ref [] rs = (ref, "", some ResolveErr.refNotFound)) := by
  have hlen : (connectedPids.length == 0) = false := by
    cases connectedPids with
    | nil => exact absurd rfl hpeers
    | cons a b => simp
  refine ⟨?_, ?_, ?_⟩
  · intro fc hfind
    rw [ResolveRef]
    simp only [Bool.not_true, hlen]
    exact resolveLoop_first_complete complete ref responses connectedPids.length fc
      (le_of_eq hall) hfind
  · intro hinc
    rw [ResolveRef]
    simp only [Bool.not_true, hlen]
    rw [← hall]
    exact resolveLoop_all_incomplete complete ref responses
      (by intro h; rw [h] at hall; simp at hall; exact hpeers (List.length_eq_zero.mp hall.symm))
      hinc
  · intro rs; rw [ResolveRef]; simp

/-- C8: every per-peer request runs under the stream context whose deadline is
`p2pRefResolverTimeout` = 20 seconds after the `ResolveRef` call; if that
deadline fires (fewer responses arrive than requests were sent) before any
complete response has been received, `ResolveRef` returns the empty source
string and the wrapped context error. -/
theorem ResolveRef_timeout_returns_ctx_error (complete : Ref → Bool)
    (ref : Ref) (connectedPids : List String)
    (responses : List ResolveRefRes)
    (hpeers : connectedPids ≠ [])
    (hfewer : responses.length < connectedPids.length)
    (hinc : ∀ r ∈ responses, complete r.ref = false) :
    p2pRefResolverTimeout = 20 * 1000000000 ∧
    ResolveRef complete true ref connectedPids responses =
      (ref, "", some ResolveErr.ctxDone) := by
  have hlen : (connectedPids.length == 0) = false := by
    cases connectedPids with
    | nil => exact absurd rfl hpeers
    | cons a b => simp
  refine ⟨rfl, ?_⟩
  rw [ResolveRef]
  simp only [Bool.not_true, hlen]
  exact resolveLoop_timeout complete ref responses connectedPids.length hfewer hinc

/-- C10: in every error-returning outcome (nil node, no connected peers, all
responses incomplete, or timeout/cancellation) the caller's ref is returned
exactly as it was passed in; it is overwritten only on the successful path. -/
theorem ResolveRef_error_leaves_ref_unchanged (complete : Ref → Bool)
    (nodePresent : Bool) (ref : Ref) (connectedPids : List String)
    (responses : List ResolveRefRes) (e : ResolveErr)
    (herr : (ResolveRef complete nodePresent ref connectedPids responses).2.2 = some e) :
    (ResolveRef complete nodePresent ref connectedPids responses).1 = ref := by
  rw [ResolveRef] at herr ⊢
  by_cases hnode : nodePresent
  · simp only [hnode, Bool.not_true, Bool.false_eq_true, if_false] at herr ⊢
    by_cases hlen : (connectedPids.length == 0) = true
    · simp [hlen]
    · have hlenF : (connectedPids.length == 0) = false := by
        simpa using hlen
      simp only [hlenF, Bool.false_eq_true, if_false] at herr ⊢
      exact resolveLoop_error_ref complete ref responses connectedPids.length
        (by rw [herr]; simp)
  · have : nodePresent = false := by simpa using hnode
    simp [this]

/-- Concrete refs and responses used by the p2p witnesses: `wRefIncomplete`
models the unresolved input ref, `wRefResolved` a fully resolved answer, and
`wComplete` stands in for `dsref.Ref.Complete`. -/
def wRefIncomplete : Ref :=
  { InitID := "", Username := "b5", ProfileID := "", Name := "world_bank_population", Path := "" }

def wRefResolved : Ref :=
  { InitID := "init1", Username := "b5", ProfileID := "QmProf",
    Name := "world_bank_population", Path := "/ipfs/QmExample" }

def wComplete : Ref → Bool := fun r => !(r.InitID == "")

/-- Witness for C1 at a concrete two-peer fan-out: the first response failed
(incomplete), the second resolved, so its source wins. -/
theorem ResolveRef_fanout_first_complete_wins_witness :
    ResolveRef wComplete true wRefIncomplete ["peerA", "peerB"]
        [resolveRefRequest wRefIncomplete "peerA" none,
         resolveRefRequest wRefIncomplete "peerB" (some wRefResolved)] =
      (wRefResolved, "peerB", none) := by
  have h := ResolveRef_fanout_first_complete_wins wComplete wRefIncomplete
    ["peerA", "peerB"]
    [resolveRefRequest wRefIncomplete "peerA" none,
     resolveRefRequest wRefIncomplete "peerB" (some wRefResolved)]
    (by decide) (by decide)
  exact h.1 (resolveRefRequest wRefIncomplete "peerB" (some wRefResolved)) (by decide)

/-- Witness for C8: two peers, only one (incomplete) response before the
deadline fires. -/
theorem ResolveRef_timeout_returns_ctx_error_witness :
    p2pRefResolverTimeout = 20 * 1000000000 ∧
    ResolveRef wComplete true wRefIncomplete ["peerA", "peerB"]
        [resolveRefRequest wRefIncomplete "peerA" none] =
      (wRefIncomplete, "", some ResolveErr.ctxDone) :=
  ResolveRef_timeout_returns_ctx_error wComplete wRefIncomplete ["peerA", "peerB"]
    [resolveRefRequest wRefIncomplete "peerA" none]
    (by decide) (by decide) (by decide)

/-- Witness for C10 at a concrete all-incomplete outcome. -/
theorem ResolveRef_error_leaves_ref_unchanged_witness :
    (ResolveRef wComplete true wRefIncomplete ["peerA"]
        [resolveRefRequest wRefIncomplete "peerA" none]).1 = wRefIncomplete :=
  ResolveRef_error_leaves_ref_unchanged wComplete true wRefIncomplete ["peerA"]
    [resolveRefRequest wRefIncomplete "peerA" none] ResolveErr.refNotFound (by decide)

end P2P

namespace Cron

/-- Modelled from the spec: §3 "RepeatingInterval: a value type with fields
(anchor, period, repetitions-remaining)".  The cron package's implementation
(and the `iso8601` library it uses) is not under `src/`; only its tests are.
Times and durations are natural numbers of milliseconds; `Repetitions = none`
is the infinite repeat count of `"R/..."` intervals, `some n` a finite
budget. -/
structure RepeatingInterval where
  Anchor : Nat
  Period : Nat
  Repetitions : Option Nat
deriving DecidableEq, Repr

/-- Modelled from the spec: §4.1 "NextAfter(interval, reference time) →
(time, ok)": the next occurrence strictly after the reference time, `none`
("ok=false") when the repeat budget is exhausted.  Occurrences are
`Anchor + k * Period`; a reference before the anchor yields the anchor
itself ("first occurrence is the anchor itself"). -/
def NextAfter (ri : RepeatingInterval) (t : Nat) : Option Nat :=
  let k := if t < ri.Anchor then 0 else (t - ri.Anchor) / ri.Period + 1
  match ri.Repetitions with
  | none => some (ri.Anchor + k * ri.Period)
  | some r => if k < r then some (ri.Anchor + k * ri.Period) else none

/-- Modelled from the spec: §3 job-type tags ("dataset-update, shell-script");
the tests name them `JTDataset` and `JTShellScript`. -/
inductive JobType where
  | JTDataset
  | JTShellScript
deriving DecidableEq, Repr

/-- Modelled from the spec: §3 the Job record.  `Typ` stands for the Go field
`Type` (a reserved word here).  `LastRunStart`/`LastRunStop` are timestamps
in milliseconds with `0` as the zero value ("never run"). -/
structure Job where
  Name : String
  Typ : JobType
  Periodicity : RepeatingInterval
  LastRunStart : Nat
  LastRunStop : Nat
  LastError : String
deriving DecidableEq, Repr

/-- C9: for a repeating interval with an infinite repeat count and positive
period, whenever `NextAfter` from reference `t` yields occurrence `u`, that
occurrence is strictly after `t` and `NextAfter` from `u` yields exactly
`u + Period` — so iterating from increasing reference times produces a
strictly increasing sequence spaced by exactly the period. -/
theorem NextAfter_infinite_strictly_increasing_by_period
    (ri : RepeatingInterval) (t u : Nat)
    (hinf : ri.Repetitions = none) (hper : 0 < ri.Period)
    (hu : NextAfter ri t = some u) :
    t < u ∧ NextAfter ri u = some (u + ri.Period) := by
  rw [NextAfter, hinf] at hu
  simp only [Option.some.injEq] at hu
  by_cases ht : t < ri.Anchor
  · rw [if_pos ht] at hu
    simp only [Nat.zero_mul, Nat.add_zero] at hu
    constructor
    · omega
    · rw [NextAfter, hinf]
      have hnot : ¬ u < ri.Anchor := by omega
      rw [if_neg hnot]
      have hsub : u - ri.Anchor = 0 := by omega
      rw [hsub]
      simp [Nat.zero_div, hper]
      omega
  · rw [if_neg ht] at hu
    set d := t - ri.Anchor with hd
    have hlt : d < (d / ri.Period + 1) * ri.Period := by
      have hdm := Nat.div_add_mod d ri.Period
      have hmod : d % ri.Period < ri.Period := Nat.mod_lt _ hper
      have : (d / ri.Period + 1) * ri.Period = ri.Period * (d / ri.Period) + ri.Period := by
        ring
      omega
    constructor
    · omega
    · rw [NextAfter, hinf]
      have hnot : ¬ u < ri.Anchor := by omega
      rw [if_neg hnot]
      have hrw : u - ri.Anchor = (d / ri.Period + 1) * ri.Period := by omega
      rw [hrw, Nat.mul_div_cancel _ hper]
      simp only [Option.some.injEq]
      have hsplit : (d / ri.Period + 1 + 1) * ri.Period =
          (d / ri.Period + 1) * ri.Period + ri.Period := by ring
      omega

/-- Witness for C9 at a concrete infinite interval (anchor 5ms, period 3ms):
`NextAfter` from 7 gives 8, then from 8 gives exactly 8 + 3. -/
theorem NextAfter_infinite_strictly_increasing_by_period_witness :
    7 < 8 ∧ NextAfter ⟨5, 3, none⟩ 8 = some (8 + 3) :=
  NextAfter_infinite_strictly_increasing_by_period ⟨5, 3, none⟩ 7 8
    rfl (by decide) (by decide)

/-- Modelled from the spec: §4.4 due-selection with a synchronous runner.
The injected test runner returns immediately (it only increments a counter),
so a launch and its completion coincide within a tick: the tick body checks
`tick time ≥ NextAfter(Periodicity, LastRunStart)` and on a run records
`LastRunStart`/`LastRunStop` and bumps the run counter. -/
structure SimState where
  job : Job
  runs : Nat
deriving DecidableEq, Repr

/-- Modelled from the spec: one tick of the scheduler loop at wall time `now`
over a single-job store, with an instantaneous runner. -/
def simTick (now : Nat) (st : SimState) : SimState :=
  match NextAfter st.job.Periodicity st.job.LastRunStart with
  | none => st
  | some due =>
    if due ≤ now then
      { job := { st.job with LastRunStart := now, LastRunStop := now },
        runs := st.runs + 1 }
    else st

/-- Run the tick loop over a list of tick times, in order. -/
def simulate (st : SimState) : List Nat → SimState
  | [] => st
  | t :: ts => simulate (simTick t st) ts

/-- Ticker fire times for a check interval: `interval, 2*interval, ...`. -/
def tickTimes (interval count : Nat) : List Nat :=
  (List.range count).map (fun i => (i + 1) * interval)

/-- One week (`"P1W"`) in milliseconds. -/
def weekMs : Nat := 604800000

/-- The job of the shell-script scenario: `"foo.sh"` with periodicity
`"R/P1W"` (infinite repeats, one-week period), anchored at parse time
(1ms, just before the scheduler starts), never yet run. -/
def wWeeklyJob : Job :=
  { Name := "foo.sh", Typ := JobType.JTShellScript,
    Periodicity := ⟨1, weekMs, none⟩,
    LastRunStart := 0, LastRunStop := 0, LastError := "" }

/-- C2: scheduling `"foo.sh"` with periodicity `"R/P1W"` and running the
scheduler with a 50ms check interval over a 500ms window executes the runner
exactly once — stated for both 9 ticks (50..450ms) and 10 ticks (50..500ms),
covering the race between the final ticker fire and the context deadline. -/
theorem weekly_job_runs_exactly_once_in_observation_window :
    (simulate { job := wWeeklyJob, runs := 0 } (tickTimes 50 9)).runs = 1 ∧
    (simulate { job := wWeeklyJob, runs := 0 } (tickTimes 50 10)).runs = 1 := by
  decide

/-- Modelled from the spec: the events the `Start` loop's select observes —
a ticker fire at a wall time, or the outer context's done signal. -/
inductive CtxEvent where
  | tick (now : Nat)
  | done
deriving DecidableEq, Repr

/-- Modelled from the spec: §4.4 "Top-level loop (`Start(ctx)`): repeats on a
fixed check interval until `ctx` is cancelled... `Start` returns (no error)
when `ctx` is done."  The loop consumes its event sequence, running the tick
body on every ticker fire, and returns a nil error at the context-done
signal (the end of the observed event sequence likewise stands for `ctx`
becoming done). -/
def Start (st : SimState) : List CtxEvent → SimState × Option String
  | [] => (st, none)
  | CtxEvent.done :: _ => (st, none)
  | CtxEvent.tick now :: rest => Start (simTick now st) rest

/-- The tick times the loop observes before the context is done. -/
def ticksBeforeDone : List CtxEvent → List Nat
  | [] => []
  | CtxEvent.done :: _ => []
  | CtxEvent.tick now :: rest => now :: ticksBeforeDone rest

/-- C3: `Start` returns with no error exactly when the context is done, and
before that it has executed the tick body for every ticker fire preceding the
done signal — it never returns early. -/
theorem Start_loops_until_ctx_done (st : SimState) (events : List CtxEvent) :
    (Start st events).2 = none ∧
    (Start st events).1 = simulate st (ticksBeforeDone events) := by
  induction events generalizing st with
  | nil => simp [Start, ticksBeforeDone, simulate]
  | cons e rest ih =>
    cases e with
    | done => simp [Start, ticksBeforeDone, simulate]
    | tick now => simpa [Start, ticksBeforeDone, simulate] using ih (simTick now st)

/-- Modelled from the spec: §4.4/§5 engine state for concurrent dispatch —
the schedule store's jobs plus the in-flight marker set, kept as the list of
job names with an execution currently running (one entry per outstanding
execution, so "at most one in flight per name" is exactly `Nodup`). -/
structure EngineState where
  jobs : List Job
  running : List String
deriving DecidableEq, Repr

/-- Modelled from the spec: §4.4 a job is selected on a tick iff
`tick time ≥ NextAfter(Periodicity, LastRunStart)` (`Idle → Due`) and no
in-flight marker is held for its name (`Due → Running` requires acquiring the
exclusive marker; an already-marked job is skipped even if nominally due). -/
def dueAt (now : Nat) (running : List String) (j : Job) : Bool :=
  match NextAfter j.Periodicity j.LastRunStart with
  | none => false
  | some due => decide (due ≤ now) && !(decide (j.Name ∈ running))

/-- Modelled from the spec: launching one due job — acquire the in-flight
marker and record `LastRunStart` at launch; a job that is not due (or whose
marker is held) leaves the state unchanged. -/
def launchOne (now : Nat) (acc : EngineState) (j : Job) : EngineState :=
  if dueAt now acc.running j then
    { jobs := acc.jobs.map (fun x =>
        if x.Name == j.Name then { x with LastRunStart := now } else x),
      running := j.Name :: acc.running }
  else acc

/-- Modelled from the spec: one tick — sweep the listed jobs in store order,
dispatching each due, unmarked job (fire-and-forget: the tick does not wait
for completions). -/
def launchDue (now : Nat) (st : EngineState) : EngineState :=
  st.jobs.foldl (launchOne now) st

/-- Modelled from the spec: §4.4 `Running → Idle` — on RunFunc return the
engine records `LastRunStop` and `LastError`, writes the job back, and clears
the in-flight marker. -/
def completeRun (name : String) (now : Nat) (err : String) (st : EngineState) :
    EngineState :=
  { jobs := st.jobs.map (fun x =>
      if x.Name == name then { x with LastRunStop := now, LastError := err } else x),
    running := st.running.erase name }

/-- Modelled from the spec: the interleaved events the engine observes —
scheduler ticks and asynchronous run completions (completions may arrive in
any order relative to ticks). -/
inductive EngineEvent where
  | tick (now : Nat)
  | complete (name : String) (now : Nat) (err : String)
deriving DecidableEq, Repr

/-- One engine step. -/
def engineStep (e : EngineEvent) (st : EngineState) : EngineState :=
  match e with
  | EngineEvent.tick now => launchDue now st
  | EngineEvent.complete name now err => completeRun name now err st

/-- Run the engine over an event sequence. -/
def engineRun (st : EngineState) : List EngineEvent → EngineState
  | [] => st
  | e :: es => engineRun (engineStep e st) es

/-- Helper: a job selected as due at a tick holds no in-flight marker. -/
theorem dueAt_not_running (now : Nat) (running : List String) (j : Job)
    (h : dueAt now running j = true) : j.Name ∉ running := by
  rw [dueAt] at h
  cases hN : NextAfter j.Periodicity j.LastRunStart with
  | none => rw [hN] at h; simp at h
  | some due =>
    rw [hN] at h
    simp only [Bool.and_eq_true, Bool.not_eq_true', decide_eq_false_iff_not] at h
    exact h.2

/-- Helper: launching a single job preserves distinctness of the in-flight
markers. -/
theorem launchOne_nodup (now : Nat) (acc : EngineState) (j : Job)
    (h : acc.running.Nodup) : (launchOne now acc j).running.Nodup := by
  rw [launchOne]
  by_cases hdue : dueAt now acc.running j = true
  · simp only [hdue, if_true]
    exact List.nodup_cons.mpr ⟨dueAt_not_running now acc.running j hdue, h⟩
  · simp only [Bool.not_eq_true] at hdue
    simp [hdue, h]

/-- Helper: a full tick sweep preserves distinctness of the in-flight
markers. -/
theorem launchDue_nodup (now : Nat) (st : EngineState)
    (h : st.running.Nodup) : (launchDue now st).running.Nodup := by
  rw [launchDue]
  generalize st.jobs = js
  induction js generalizing st with
  | nil => simpa using h
  | cons j rest ih =>
    simp only [List.foldl_cons]
    exact ih (launchOne now st j) (launchOne_nodup now st j h)

/-- C4: single-flight per job name.  If each name has at most one execution
in flight, then after any interleaving of ticks and run completions each name
still has at most one execution in flight: a tick that finds a job due while
a previous run of it is incomplete does not launch a second execution. -/
theorem engine_single_flight_invariant (events : List EngineEvent)
    (st : EngineState) (h : st.running.Nodup) :
    (engineRun st events).running.Nodup := by
  induction events generalizing st with
  | nil => simpa [engineRun] using h
  | cons e es ih =>
    rw [engineRun]
    apply ih
    cases e with
    | tick now => exact launchDue_nodup now st h
    | complete name now err => exact (List.Nodup.erase name h)

/-- A short-period job for exercising the single-flight scenario: due again
10ms after each run start. -/
def wFastJob : Job :=
  { Name := "b5/libp2p_node_count", Typ := JobType.JTDataset,
    Periodicity := ⟨1, 10, none⟩,
    LastRunStart := 0, LastRunStop := 0, LastError := "" }

/-- Witness for C4: from an idle store, a tick at 50ms launches the job; a
second tick at 60ms finds it due again while its run is still in flight, and
the marker set stays duplicate-free (the run is not launched twice). -/
theorem engine_single_flight_invariant_witness :
    ([] : List String).Nodup ∧
    (engineRun { jobs := [wFastJob], running := [] }
        [EngineEvent.tick 50, EngineEvent.tick 60]).running.Nodup :=
  ⟨by decide,
   engine_single_flight_invariant [EngineEvent.tick 50, EngineEvent.tick 60]
     { jobs := [wFastJob], running := [] } (by decide)⟩

/-- Modelled from the spec: §7 the error taxonomy shared by the engine and
the control-plane client (`NotFound`, `ValidationError`, `Unreachable`). -/
inductive CronError where
  | notFound
  | validationError
  | unreachable
deriving DecidableEq, Repr

/-- `ErrUnreachable`, returned by the HTTP client when it cannot establish a
connection to the server. -/
def ErrUnreachable : CronError := CronError.unreachable

/-- Modelled from the spec: §4.2 `Put` — upsert by `Name`, preserving
insertion order (a `MemJobStore` is its ordered job list). -/
def Put (s : List Job) (j : Job) : List Job :=
  if s.any (fun x => x.Name == j.Name) then
    s.map (fun x => if x.Name == j.Name then j else x)
  else s ++ [j]

/-- Modelled from the spec: §4.2 `Get` — `NotFound` (here `none`) if
absent. -/
def Get (s : List Job) (name : String) : Option Job :=
  s.find? (fun x => x.Name == name)

/-- Modelled from the spec: §4.2 `Delete` — `NotFound` error if absent,
removal otherwise. -/
def Delete (s : List Job) (name : String) : Except CronError (List Job) :=
  if s.any (fun x => x.Name == name) then
    Except.ok (s.filter (fun x => !(x.Name == name)))
  else Except.error CronError.notFound

/-- Modelled from the spec: §4.2 `List(offset, limit)` — stable insertion
order, `limit=0` means "all remaining after offset", an offset beyond the
length yields the empty list, not an error. -/
def ListJobs (s : List Job) (offset limit : Nat) : List Job :=
  let after := s.drop offset
  if limit == 0 then after else after.take limit

/-- Modelled from the spec: §4.4 `Schedule(ctx, job)` — validates the job
(non-empty name; the periodicity is parseable by construction here, its
parsed form being the `RepeatingInterval` value) and puts it into the
schedule store. -/
def Schedule (s : List Job) (j : Job) : Except CronError (List Job) :=
  if j.Name == "" then Except.error CronError.validationError
  else Except.ok (Put s j)

/-- Modelled from the spec: §4.4 `Unschedule(ctx, name)` — removes from the
schedule store; `NotFound` if absent. -/
def Unschedule (s : List Job) (name : String) : Except CronError (List Job) :=
  Delete s name

/-- C5: from an empty schedule store, scheduling a valid job makes
`List 0 0` return exactly one entry, whose name is the scheduled job's name;
unscheduling that name empties the listing again — the listed count
transitions 0 → 1 → 0. -/
theorem schedule_list_unschedule_count (j : Job) (h : j.Name ≠ "") :
    (ListJobs ([] : List Job) 0 0).length = 0 ∧
    Schedule [] j = Except.ok [j] ∧
    (ListJobs [j] 0 0).length = 1 ∧
    (ListJobs [j] 0 0).map Job.Name = [j.Name] ∧
    Unschedule [j] j.Name = Except.ok [] := by
  refine ⟨rfl, ?_, rfl, rfl, ?_⟩
  · rw [Schedule, if_neg (by simpa using h)]
    rw [Put]
    simp
  · rw [Unschedule, Delete]
    simp

/-- Witness for C5 at the test's dataset job name. -/
theorem schedule_list_unschedule_count_witness :
    (ListJobs ([] : List Job) 0 0).length = 0 ∧
    Schedule [] wFastJob = Except.ok [wFastJob] ∧
    (ListJobs [wFastJob] 0 0).length = 1 ∧
    (ListJobs [wFastJob] 0 0).map Job.Name = [wFastJob.Name] ∧
    Unschedule [wFastJob] wFastJob.Name = Except.ok [] :=
  schedule_list_unschedule_count wFastJob (by decide)

/-- Modelled from the spec: §6 the wire form of a Job — `Type` as its string
tag, `Periodicity` in its canonical repeating-interval form and timestamps in
their textual forms (both canonical forms are in bijection with the parsed
values, so they are carried here as those values). -/
structure WireJob where
  name : String
  typeTag : String
  periodicity : RepeatingInterval
  lastRunStart : Nat
  lastRunStop : Nat
  lastError : String
deriving DecidableEq, Repr

/-- The string tag of a job type on the wire. -/
def typeTagOf : JobType → String
  | JobType.JTDataset => "dataset"
  | JobType.JTShellScript => "shell"

/-- Parse a wire type tag back into a job type; unknown tags fail. -/
def parseJobType (s : String) : Option JobType :=
  if s == "dataset" then some JobType.JTDataset
  else if s == "shell" then some JobType.JTShellScript
  else none

/-- Encode a Job for the wire. -/
def encodeJob (j : Job) : WireJob :=
  { name := j.Name, typeTag := typeTagOf j.Typ, periodicity := j.Periodicity,
    lastRunStart := j.LastRunStart, lastRunStop := j.LastRunStop,
    lastError := j.LastError }

/-- Decode a wire Job; fails on an unknown type tag. -/
def decodeJob (w : WireJob) : Option Job :=
  match parseJobType w.typeTag with
  | none => none
  | some t =>
    some { Name := w.name, Typ := t, Periodicity := w.periodicity,
           LastRunStart := w.lastRunStart, LastRunStop := w.lastRunStop,
           LastError := w.lastError }

/-- Modelled from the spec: §6 the control-plane requests (ping, list, get,
schedule, unschedule). -/
inductive Request where
  | ping
  | jobs (offset limit : Nat)
  | job (name : String)
  | schedule (w : WireJob)
  | unschedule (name : String)
deriving DecidableEq, Repr

/-- Modelled from the spec: §6 the control-plane responses. -/
inductive Response where
  | ok
  | okJobs (l : List WireJob)
  | okJob (w : WireJob)
  | errNotFound
  | errValidation
deriving DecidableEq, Repr

/-- Modelled from the spec: §4.5 the control-plane server — each endpoint
maps directly onto the corresponding scheduler-engine operation over the
schedule store, encoding results for the wire.  Returns the response and the
server's store after the request. -/
def serverHandle (s : List Job) (req : Request) : Response × List Job :=
  match req with
  | Request.ping => (Response.ok, s)
  | Request.jobs offset limit =>
    (Response.okJobs ((ListJobs s offset limit).map encodeJob), s)
  | Request.job name =>
    match Get s name with
    | none => (Response.errNotFound, s)
    | some j => (Response.okJob (encodeJob j), s)
  | Request.schedule w =>
    match decodeJob w with
    | none => (Response.errValidation, s)
    | some j =>
      match Schedule s j with
      | Except.error _ => (Response.errValidation, s)
      | Except.ok s2 => (Response.ok, s2)
  | Request.unschedule name =>
    match Unschedule s name with
    | Except.error _ => (Response.errNotFound, s)
    | Except.ok s2 => (Response.ok, s2)

/-- Modelled from the spec: the HTTP hop — a request against an address with
no listening server fails with a connection-refused transport error (mapped
to `ErrUnreachable` by the client); against a live server it yields that
server's response. -/
def httpDo (server : Option (List Job)) (req : Request) :
    Except CronError (Response × List Job) :=
  match server with
  | none => Except.error ErrUnreachable
  | some s => Except.ok (serverHandle s req)

/-- Modelled from the spec: §4.6 `Ping()` — `ErrUnreachable` exactly when no
connection can be established, nil against a live server. -/
def Ping (server : Option (List Job)) : Option CronError :=
  match httpDo server Request.ping with
  | Except.error e => some e
  | Except.ok _ => none

/-- Decode a list of wire jobs; fails if any entry fails to decode. -/
def decodeJobs : List WireJob → Option (List Job)
  | [] => some []
  | w :: ws =>
    match decodeJob w, decodeJobs ws with
    | some j, some js => some (j :: js)
    | _, _ => none

/-- Modelled from the spec: §4.6 client `Jobs` — request, decode the wire
jobs back into the engine's Job vocabulary. -/
def cliJobs (s : List Job) (offset limit : Nat) : Except CronError (List Job) :=
  match httpDo (some s) (Request.jobs offset limit) with
  | Except.error e => Except.error e
  | Except.ok (Response.okJobs l, _) =>
    match decodeJobs l with
    | none => Except.error CronError.validationError
    | some jobs => Except.ok jobs
  | Except.ok _ => Except.error CronError.validationError

/-- Modelled from the spec: §4.6 client `Job` (get one by name). -/
def cliJob (s : List Job) (name : String) : Except CronError Job :=
  match httpDo (some s) (Request.job name) with
  | Except.error e => Except.error e
  | Except.ok (Response.okJob w, _) =>
    match decodeJob w with
    | none => Except.error CronError.validationError
    | some j => Except.ok j
  | Except.ok (Response.errNotFound, _) => Except.error CronError.notFound
  | Except.ok _ => Except.error CronError.validationError

/-- Modelled from the spec: §4.6 client `Schedule`. -/
def cliSchedule (s : List Job) (j : Job) : Except CronError (List Job) :=
  match httpDo (some s) (Request.schedule (encodeJob j)) with
  | Except.error e => Except.error e
  | Except.ok (Response.ok, s2) => Except.ok s2
  | Except.ok (Response.errValidation, _) => Except.error CronError.validationError
  | Except.ok _ => Except.error CronError.notFound

/-- Modelled from the spec: §4.6 client `Unschedule`. -/
def cliUnschedule (s : List Job) (name : String) : Except CronError (List Job) :=
  match httpDo (some s) (Request.unschedule name) with
  | Except.error e => Except.error e
  | Except.ok (Response.ok, s2) => Except.ok s2
  | Except.ok (Response.errNotFound, _) => Except.error CronError.notFound
  | Except.ok _ => Except.error CronError.validationError

/-- The local engine's get-one operation in the shared error vocabulary. -/
def localJob (s : List Job) (name : String) : Except CronError Job :=
  match Get s name with
  | none => Except.error CronError.notFound
  | some j => Except.ok j

/-- Helper: wire encoding of a job decodes back to the same job. -/
theorem decodeJob_encodeJob (j : Job) : decodeJob (encodeJob j) = some j := by
  cases j with
  | mk name typ peri lrstart lrstop lerr => cases typ <;> rfl

/-- Helper: decoding a list of encoded jobs recovers the list. -/
theorem decodeJobs_map_encodeJob (l : List Job) :
    decodeJobs (l.map encodeJob) = some l := by
  induction l with
  | nil => rfl
  | cons j rest ih =>
    simp [decodeJobs, decodeJob_encodeJob, ih]

/-- C6: each control-plane client operation (`Jobs`, `Job`, `Schedule`,
`Unschedule`) issued over the HTTP model against a reachable server running
on store `s` returns the same jobs, the same resulting store, and the same
errors as the corresponding local scheduler-engine operation on `s`. -/
theorem client_operations_match_local_engine (s : List Job)
    (offset limit : Nat) (name : String) (j : Job) :
    cliJobs s offset limit = Except.ok (ListJobs s offset limit) ∧
    cliJob s name = localJob s name ∧
    cliSchedule s j = Schedule s j ∧
    cliUnschedule s name = Unschedule s name := by
  refine ⟨?_, ?_, ?_, ?_⟩
  · rw [cliJobs, httpDo, serverHandle]
    simp [decodeJobs_map_encodeJob]
  · rw [cliJob, httpDo, serverHandle, localJob]
    cases Get s name with
    | none => rfl
    | some jj => simp [decodeJob_encodeJob]
  · rw [cliSchedule, httpDo, serverHandle, decodeJob_encodeJob]
    cases hs : Schedule s j with
    | error e =>
      have he : e = CronError.validationError := by
        rw [Schedule] at hs
        by_cases hn : (j.Name == "") = true
        · rw [if_pos hn] at hs; cases hs; rfl
        · rw [if_neg hn] at hs; cases hs
      subst he
      simp [hs]
    | ok s2 => simp [hs]
  · rw [cliUnschedule, httpDo, serverHandle, Unschedule]
    cases hs : Delete s name with
    | error e =>
      have he : e = CronError.notFound := by
        rw [Delete] at hs
        by_cases hn : (s.any fun x => x.Name == name) = true
        · rw [if_pos hn] at hs; cases hs
        · rw [if_neg hn] at hs; cases hs; rfl
      subst he
      simp [Unschedule, hs]
    | ok s2 => simp [Unschedule, hs]

/-- C7: `Ping()` against an address with no listening server returns exactly
`ErrUnreachable` (and no other error), and `Ping()` against a live, reachable
server returns nil. -/
theorem Ping_unreachable_exactly_and_live_nil (s : List Job) :
    Ping none = some ErrUnreachable ∧ Ping (some s) = none :=
  ⟨rfl, rfl⟩

end Cron
